import Mathlib

/-!
Shallow embedding of the availability, blocking and pricing logic of the
V-A booking back-end (Express/Mongoose).  Calendar dates are represented as
integer day numbers (days since 1970-01-01, i.e. the UTC date component of the
stored instants); one JS day step of 24*60*60*1000 ms is one unit, so the JS
comparisons and one-day offsets on UTC-midnight Date values map to integer
comparisons and plus/minus one.
-/

namespace VABack

/-- Day number of a Gregorian calendar date (days since 1970-01-01), the
standard civil-to-day-number correspondence.  Used to name the concrete
dates appearing in the claims (e.g. 2025-09-21). -/
def dayOf (y m d : Int) : Int :=
  let yy := if m ≤ 2 then y - 1 else y
  let era := Int.fdiv yy 400
  let yoe := yy - era * 400
  let mp := (m + 9) % 12
  let doy := Int.fdiv (153 * mp + 2) 5 + d - 1
  let doe := yoe * 365 + Int.fdiv yoe 4 - Int.fdiv yoe 100 + doy
  era * 146097 + doe - 719468

/-- Booking status enumeration of models/booking.js. -/
inductive BookingStatus
  | pending
  | accepted
  | refused
  | confirmed
  | temporary
  | cancelled
deriving DecidableEq

/-- The statuses treated as occupying by every conflict query in the source:
`status: { $in: ["pending", "accepted", "confirmed"] }`. -/
def BookingStatus.isActive : BookingStatus → Bool
  | .pending => true
  | .accepted => true
  | .confirmed => true
  | _ => false

/-- The fields of models/booking.js relevant to availability. -/
structure Booking where
  apartmentId : String
  startDate : Int
  endDate : Int
  status : BookingStatus
deriving DecidableEq

/-- The blockedDateSchema of models/calendar.js. -/
structure BlockedPeriod where
  apartmentId : String
  startDate : Int
  endDate : Int
  reason : String
deriving DecidableEq

/-- Blocked-date conflict query of POST /checkAvailability (routes/calendar.js):
`BlockedDate.find({ apartmentId, startDate: { $lte: end }, endDate: { $gte: start } })`. -/
def blockedConflicts (blocked : List BlockedPeriod) (apt : String) (s e : Int) :
    List BlockedPeriod :=
  blocked.filter fun p => decide (p.apartmentId = apt ∧ p.startDate ≤ e ∧ s ≤ p.endDate)

/-- Booking conflict query of POST /checkAvailability (routes/calendar.js):
`Booking.find({ apartmentId, status: { $in: [...] },
startDate: { $lte: end }, endDate: { $gte: start } })`. -/
def bookingConflicts (bookings : List Booking) (apt : String) (s e : Int) :
    List Booking :=
  bookings.filter fun b =>
    b.status.isActive && decide (b.apartmentId = apt ∧ b.startDate ≤ e ∧ s ≤ b.endDate)

/-- The `available` field of the POST /checkAvailability response:
`allConflicts = [...blockedConflicts, ...bookingConflicts]` and
`available: allConflicts.length === 0` (the length of the concatenation is the
sum of the two lengths). -/
def checkAvailability (blocked : List BlockedPeriod) (bookings : List Booking)
    (apt : String) (s e : Int) : Bool :=
  ((blockedConflicts blocked apt s e).length + (bookingConflicts bookings apt s e).length) == 0

/-- Conflict query of POST /create-request (routes/booking.js) for one cart item:
`Booking.find({ apartmentId, status: { $in: [...] },
startDate: { $lte: item.endDate }, endDate: { $gte: item.startDate } })`;
the request is rejected when this list is non-empty. -/
def conflictingBookings (bookings : List Booking) (apt : String) (s e : Int) :
    List Booking :=
  bookings.filter fun b =>
    b.status.isActive && decide (b.apartmentId = apt ∧ b.startDate ≤ e ∧ s ≤ b.endDate)

/-- Concrete active booking 2025-09-21 to 2025-09-26 used for claim C1. -/
def c1Booking : Booking :=
  { apartmentId := "valery-sources-baie", startDate := dayOf 2025 9 21,
    endDate := dayOf 2025 9 26, status := .pending }

/-- Claim C1 counterexample: a candidate range [2025-09-26, 2025-09-30] whose
arrival date equals the departure date of the only existing active booking
[2025-09-21, 2025-09-26] IS reported as a conflict: the availability check
returns available = false and the booking-creation conflict list is non-empty,
because both queries use the closed comparison
`startDate <= candidate.end AND endDate >= candidate.start`,
not the strict overlap test stated in the claim. -/
theorem C1_counterexample :
    checkAvailability [] [c1Booking] "valery-sources-baie"
        (dayOf 2025 9 26) (dayOf 2025 9 30) = false ∧
    conflictingBookings [c1Booking] "valery-sources-baie"
        (dayOf 2025 9 26) (dayOf 2025 9 30) ≠ [] := by
  decide

/-- Claim C1 (amended): the availability check and the booking-creation check
compare candidate ranges against active bookings (status pending, accepted or
confirmed) with the CLOSED overlap test
`existing.startDate <= candidate.end AND existing.endDate >= candidate.start`,
so a new booking whose arrival date equals an existing active booking's
departure date IS reported as a conflict and availability is false. -/
theorem C1_amended_closed_overlap (blocked : List BlockedPeriod)
    (bookings : List Booking) (apt : String) (s e : Int) (b : Booking)
    (hb : b ∈ bookings) (hapt : b.apartmentId = apt) (hact : b.status.isActive = true)
    (hwf : b.startDate ≤ b.endDate) (harr : b.endDate = s) (hse : s ≤ e) :
    (∀ b2 : Booking,
      (b2 ∈ bookingConflicts bookings apt s e ↔
        (b2 ∈ bookings ∧ b2.status.isActive = true ∧ b2.apartmentId = apt ∧
         b2.startDate ≤ e ∧ s ≤ b2.endDate)) ∧
      conflictingBookings bookings apt s e = bookingConflicts bookings apt s e) ∧
    checkAvailability blocked bookings apt s e = false := by
  have hchar : ∀ b2 : Booking,
      b2 ∈ bookingConflicts bookings apt s e ↔
        (b2 ∈ bookings ∧ b2.status.isActive = true ∧ b2.apartmentId = apt ∧
         b2.startDate ≤ e ∧ s ≤ b2.endDate) := by
    intro b2
    simp only [bookingConflicts, List.mem_filter, Bool.and_eq_true, decide_eq_true_eq]
  refine ⟨fun b2 => ⟨hchar b2, rfl⟩, ?_⟩
  have hbmem : b ∈ bookingConflicts bookings apt s e := by
    exact (hchar b).mpr ⟨hb, hact, hapt, by omega, by omega⟩
  have hlen : 0 < (bookingConflicts bookings apt s e).length :=
    List.length_pos.mpr (List.ne_nil_of_mem hbmem)
  simp only [checkAvailability, beq_eq_false_iff_ne, ne_eq]
  omega

/-- Claim C1 (amended) witness: the amended theorem applied to the concrete
booking [2025-09-21, 2025-09-26] and candidate range [2025-09-26, 2025-09-30]. -/
theorem C1_amended_closed_overlap_witness :
    (∀ b2 : Booking,
      (b2 ∈ bookingConflicts [c1Booking] "valery-sources-baie"
          (dayOf 2025 9 26) (dayOf 2025 9 30) ↔
        (b2 ∈ [c1Booking] ∧ b2.status.isActive = true ∧
         b2.apartmentId = "valery-sources-baie" ∧
         b2.startDate ≤ dayOf 2025 9 30 ∧ dayOf 2025 9 26 ≤ b2.endDate)) ∧
      conflictingBookings [c1Booking] "valery-sources-baie"
          (dayOf 2025 9 26) (dayOf 2025 9 30) =
        bookingConflicts [c1Booking] "valery-sources-baie"
          (dayOf 2025 9 26) (dayOf 2025 9 30)) ∧
    checkAvailability [] [c1Booking] "valery-sources-baie"
        (dayOf 2025 9 26) (dayOf 2025 9 30) = false :=
  C1_amended_closed_overlap [] [c1Booking] "valery-sources-baie"
    (dayOf 2025 9 26) (dayOf 2025 9 30) c1Booking
    (by decide) (by decide) (by decide) (by decide) (by decide) (by decide)

/-- The date list produced by the JS loop
`for (let date = a; date <= b; date.setDate(date.getDate() + 1))` pushing each
date (UTC-midnight day steps). -/
def datesFromTo (a b : Int) : List Int :=
  (List.range (b + 1 - a).toNat).map fun (i : Nat) => a + (i : Int)

theorem mem_datesFromTo {a b d : Int} : d ∈ datesFromTo a b ↔ a ≤ d ∧ d ≤ b := by
  unfold datesFromTo
  rw [List.mem_map]
  constructor
  · rintro ⟨i, hi, rfl⟩
    rw [List.mem_range] at hi
    omega
  · intro h
    refine ⟨(d - a).toNat, ?_, ?_⟩
    · rw [List.mem_range]
      omega
    · omega

/-- Per-period disabled dates of the `blockedDates.forEach` loop in
GET /disabledDates (routes/calendar.js): a single-day period
(`startDateStr === endDateStr`) blocks exactly its day; otherwise the loop
pushes every date from the start up to `lastBlockedDate = finalDate - 1 day`. -/
def blockedPeriodDisabled (p : BlockedPeriod) : List Int :=
  if p.startDate = p.endDate then [p.startDate]
  else datesFromTo p.startDate (p.endDate - 1)

/-- Per-period contribution to `departureDates` in the same loop: the end date
of a multi-day blocked period becomes available for arrival
(`departureDates.add(endDateStr)` in the else branch only). -/
def blockedPeriodDeparture (p : BlockedPeriod) : List Int :=
  if p.startDate = p.endDate then [] else [p.endDate]

/-- Per-booking disabled dates of the `bookings.forEach` loop in
GET /disabledDates: arrival through `lastNightDate = finalDate - 1 day`. -/
def bookingDisabled (b : Booking) : List Int :=
  datesFromTo b.startDate (b.endDate - 1)

/-- The two arrays of the GET /disabledDates response. -/
structure DisabledDatesResult where
  disabledDates : List Int
  availableDepartureDates : List Int
deriving DecidableEq

/-- GET /disabledDates (routes/calendar.js): fetch the blocked periods with
`endDate: { $gte: now }` and the bookings with active status and
`endDate: { $gte: now }`, then run the two forEach loops.  The route finally
deduplicates and sorts both arrays, which leaves membership unchanged, so the
result is modelled before that final dedup/sort as the concatenated
per-record contributions. -/
def expandDisabledDates (blocked : List BlockedPeriod) (bookings : List Booking)
    (today : Int) : DisabledDatesResult :=
  { disabledDates :=
      (blocked.filter fun p => decide (today ≤ p.endDate)).flatMap blockedPeriodDisabled ++
      (bookings.filter fun b =>
        b.status.isActive && decide (today ≤ b.endDate)).flatMap bookingDisabled
    availableDepartureDates :=
      (blocked.filter fun p => decide (today ≤ p.endDate)).flatMap blockedPeriodDeparture ++
      (bookings.filter fun b =>
        b.status.isActive && decide (today ≤ b.endDate)).map Booking.endDate }

/-- Claim C2: for every BlockedPeriod processed by the disabled-date expansion
(i.e. fetched because its endDate is not in the past): if startDate = endDate
its contribution is exactly that single disabled date and no departure date;
otherwise its disabled contribution is exactly the dates
startDate .. endDate - 1, each of which lands in disabledDates, and endDate is
added to availableDepartureDates. -/
theorem C2_blocked_period_expansion (blocked : List BlockedPeriod)
    (bookings : List Booking) (today : Int) (p : BlockedPeriod)
    (hp : p ∈ blocked) (hfut : today ≤ p.endDate) :
    (p.startDate = p.endDate →
      blockedPeriodDisabled p = [p.startDate] ∧
      blockedPeriodDeparture p = [] ∧
      p.startDate ∈ (expandDisabledDates blocked bookings today).disabledDates) ∧
    (p.startDate ≠ p.endDate →
      (∀ d : Int, d ∈ blockedPeriodDisabled p ↔ p.startDate ≤ d ∧ d ≤ p.endDate - 1) ∧
      (∀ d : Int, p.startDate ≤ d → d ≤ p.endDate - 1 →
        d ∈ (expandDisabledDates blocked bookings today).disabledDates) ∧
      p.endDate ∈ (expandDisabledDates blocked bookings today).availableDepartureDates) := by
  have hpf : p ∈ blocked.filter fun q => decide (today ≤ q.endDate) :=
    List.mem_filter.mpr ⟨hp, by simpa using hfut⟩
  constructor
  · intro heq
    refine ⟨by simp [blockedPeriodDisabled, heq], by simp [blockedPeriodDeparture, heq], ?_⟩
    simp only [expandDisabledDates, List.mem_append]
    exact Or.inl (List.mem_flatMap.mpr ⟨p, hpf, by simp [blockedPeriodDisabled, heq]⟩)
  · intro hne
    refine ⟨?_, ?_, ?_⟩
    · intro d
      simp [blockedPeriodDisabled, hne, mem_datesFromTo]
    · intro d h1 h2
      simp only [expandDisabledDates, List.mem_append]
      refine Or.inl (List.mem_flatMap.mpr ⟨p, hpf, ?_⟩)
      rw [blockedPeriodDisabled, if_neg hne, mem_datesFromTo]
      omega
    · simp only [expandDisabledDates, List.mem_append]
      exact Or.inl (List.mem_flatMap.mpr ⟨p, hpf, by simp [blockedPeriodDeparture, hne]⟩)

/-- Concrete multi-day blocked period 2025-01-01 .. 2025-01-03 for the C2
witness. -/
def c2Period : BlockedPeriod :=
  { apartmentId := "touquet-pinede", startDate := dayOf 2025 1 1,
    endDate := dayOf 2025 1 3, reason := "travaux" }

/-- Claim C2 witness: the theorem applied to the concrete blocked period
2025-01-01 .. 2025-01-03 with today = 2025-01-01. -/
theorem C2_blocked_period_expansion_witness :
    (c2Period.startDate = c2Period.endDate →
      blockedPeriodDisabled c2Period = [c2Period.startDate] ∧
      blockedPeriodDeparture c2Period = [] ∧
      c2Period.startDate ∈ (expandDisabledDates [c2Period] [] (dayOf 2025 1 1)).disabledDates) ∧
    (c2Period.startDate ≠ c2Period.endDate →
      (∀ d : Int, d ∈ blockedPeriodDisabled c2Period ↔
        c2Period.startDate ≤ d ∧ d ≤ c2Period.endDate - 1) ∧
      (∀ d : Int, c2Period.startDate ≤ d → d ≤ c2Period.endDate - 1 →
        d ∈ (expandDisabledDates [c2Period] [] (dayOf 2025 1 1)).disabledDates) ∧
      c2Period.endDate ∈
        (expandDisabledDates [c2Period] [] (dayOf 2025 1 1)).availableDepartureDates) :=
  C2_blocked_period_expansion [c2Period] [] (dayOf 2025 1 1) c2Period
    (by decide) (by decide)

/-- Helper shared by claim C3: every active, not-yet-ended booking contributes
its nights (arrival .. departure - 1) to disabledDates and its departure date
to availableDepartureDates. -/
theorem booking_mem_expansion (blocked : List BlockedPeriod) (bookings : List Booking)
    (today : Int) (b : Booking) (hb : b ∈ bookings)
    (hact : b.status.isActive = true) (hfut : today ≤ b.endDate) :
    (∀ d : Int, b.startDate ≤ d → d ≤ b.endDate - 1 →
      d ∈ (expandDisabledDates blocked bookings today).disabledDates) ∧
    b.endDate ∈ (expandDisabledDates blocked bookings today).availableDepartureDates := by
  have hbf : b ∈ bookings.filter fun c => c.status.isActive && decide (today ≤ c.endDate) := by
    refine List.mem_filter.mpr ⟨hb, ?_⟩
    simp [hact, hfut]
  constructor
  · intro d h1 h2
    simp only [expandDisabledDates, List.mem_append]
    refine Or.inr (List.mem_flatMap.mpr ⟨b, hbf, ?_⟩)
    simp only [bookingDisabled, mem_datesFromTo]
    omega
  · simp only [expandDisabledDates, List.mem_append]
    exact Or.inr (List.mem_map.mpr ⟨b, hbf, rfl⟩)

/-- Concrete confirmed booking [2025-09-21, 2025-09-26] of claim C3. -/
def c3Booking : Booking :=
  { apartmentId := "valery-sources-baie", startDate := dayOf 2025 9 21,
    endDate := dayOf 2025 9 26, status := .confirmed }

/-- Claim C3: every active booking with endDate >= today contributes each date
from startDate through endDate - 1 to disabledDates and its endDate to
availableDepartureDates; concretely, for the single booking
[2025-09-21, 2025-09-26], the dates 2025-09-21 .. 2025-09-25 are all disabled
while 2025-09-26 is not disabled and is an available departure date. -/
theorem C3_booking_expansion (blocked : List BlockedPeriod) (bookings : List Booking)
    (today : Int) (b : Booking) (hb : b ∈ bookings)
    (hact : b.status.isActive = true) (hfut : today ≤ b.endDate) :
    ((∀ d : Int, b.startDate ≤ d → d ≤ b.endDate - 1 →
        d ∈ (expandDisabledDates blocked bookings today).disabledDates) ∧
      b.endDate ∈ (expandDisabledDates blocked bookings today).availableDepartureDates) ∧
    ((∀ d : Int, dayOf 2025 9 21 ≤ d → d ≤ dayOf 2025 9 25 →
        d ∈ (expandDisabledDates [] [c3Booking] (dayOf 2025 9 1)).disabledDates) ∧
      dayOf 2025 9 26 ∉ (expandDisabledDates [] [c3Booking] (dayOf 2025 9 1)).disabledDates ∧
      dayOf 2025 9 26 ∈
        (expandDisabledDates [] [c3Booking] (dayOf 2025 9 1)).availableDepartureDates) := by
  refine ⟨booking_mem_expansion blocked bookings today b hb hact hfut, ?_, ?_, ?_⟩
  · intro d h1 h2
    have hgen := (booking_mem_expansion [] [c3Booking] (dayOf 2025 9 1) c3Booking
      (by decide) (by decide) (by decide)).1
    have hs : c3Booking.startDate = dayOf 2025 9 21 := rfl
    have he : c3Booking.endDate - 1 = dayOf 2025 9 25 := by decide
    exact hgen d (by omega) (by omega)
  · decide
  · decide

/-- Claim C3 witness: the theorem applied to the concrete single-booking store
[2025-09-21, 2025-09-26] with today = 2025-09-01. -/
theorem C3_booking_expansion_witness :
    ((∀ d : Int, c3Booking.startDate ≤ d → d ≤ c3Booking.endDate - 1 →
        d ∈ (expandDisabledDates [] [c3Booking] (dayOf 2025 9 1)).disabledDates) ∧
      c3Booking.endDate ∈
        (expandDisabledDates [] [c3Booking] (dayOf 2025 9 1)).availableDepartureDates) ∧
    ((∀ d : Int, dayOf 2025 9 21 ≤ d → d ≤ dayOf 2025 9 25 →
        d ∈ (expandDisabledDates [] [c3Booking] (dayOf 2025 9 1)).disabledDates) ∧
      dayOf 2025 9 26 ∉ (expandDisabledDates [] [c3Booking] (dayOf 2025 9 1)).disabledDates ∧
      dayOf 2025 9 26 ∈
        (expandDisabledDates [] [c3Booking] (dayOf 2025 9 1)).availableDepartureDates) :=
  C3_booking_expansion [] [c3Booking] (dayOf 2025 9 1) c3Booking
    (by decide) (by decide) (by decide)

/-- The four-clause `$or` query of DELETE /unblockDates (routes/calendar.js),
restricted to the apartment: period fully inside the release range, period
fully containing it, partial overlap with the period's start inside it, and
partial overlap with the period's end inside it. -/
def unblockQueryMatches (apt : String) (s e : Int) (p : BlockedPeriod) : Prop :=
  p.apartmentId = apt ∧
  ((s ≤ p.startDate ∧ p.endDate ≤ e) ∨
   (p.startDate ≤ s ∧ e ≤ p.endDate) ∨
   (p.startDate ≤ e ∧ s ≤ p.startDate ∧ e < p.endDate) ∨
   (s ≤ p.endDate ∧ p.endDate ≤ e ∧ p.startDate < s))

instance (apt : String) (s e : Int) (p : BlockedPeriod) :
    Decidable (unblockQueryMatches apt s e p) := by
  unfold unblockQueryMatches
  infer_instance

/-- The residual periods created by the split loop for one deleted period: the
part before the released range (`[periodStart, unblockStart - 1 day]`, created
when `periodStart < unblockStart`) and the part after
(`[unblockEnd + 1 day, periodEnd]`, created when `periodEnd > unblockEnd`),
both keeping the original period's reason. -/
def residuals (apt : String) (s e : Int) (p : BlockedPeriod) : List BlockedPeriod :=
  (if p.startDate < s then
    [{ apartmentId := apt, startDate := p.startDate, endDate := s - 1,
       reason := p.reason }]
   else []) ++
  (if e < p.endDate then
    [{ apartmentId := apt, startDate := e + 1, endDate := p.endDate,
       reason := p.reason }]
   else [])

/-- The JSON body of the DELETE /unblockDates response: `none` models a field
absent from the branch's response object. -/
structure UnblockResponse where
  result : Bool
  error : Option String
  deletedCount : Option Nat
  createdCount : Option Nat
deriving DecidableEq

/-- DELETE /unblockDates: find all overlapping periods with the four-clause
query; when none are found return the `result: false` "nothing found" body
(which carries no count fields) and leave the store unchanged; otherwise
delete each overlapping period, create its residual periods, and return the
counts.  The function returns the response body together with the
post-operation store. -/
def unblockDates (store : List BlockedPeriod) (apt : String) (s e : Int) :
    UnblockResponse × List BlockedPeriod :=
  if (store.filter fun p => decide (unblockQueryMatches apt s e p)).isEmpty then
    ({ result := false,
       error := some "Aucune période bloquée trouvée dans cette plage de dates",
       deletedCount := none, createdCount := none }, store)
  else
    ({ result := true, error := none,
       deletedCount := some (store.filter fun p =>
         decide (unblockQueryMatches apt s e p)).length,
       createdCount := some ((store.filter fun p =>
         decide (unblockQueryMatches apt s e p)).flatMap (residuals apt s e)).length },
     store.filter (fun p => !decide (unblockQueryMatches apt s e p)) ++
       (store.filter fun p =>
         decide (unblockQueryMatches apt s e p)).flatMap (residuals apt s e))

/-- Claim C4: unblocking [2025-01-03, 2025-01-05] when the store holds exactly
the period [2025-01-01, 2025-01-10] deletes that period and creates exactly
the residuals [2025-01-01, 2025-01-02] and [2025-01-06, 2025-01-10], each with
the original reason, returning deletedCount = 1 and createdCount = 2. -/
theorem C4_split_concrete :
    unblockDates
        [{ apartmentId := "valery-sources-baie", startDate := dayOf 2025 1 1,
           endDate := dayOf 2025 1 10, reason := "hiver" }]
        "valery-sources-baie" (dayOf 2025 1 3) (dayOf 2025 1 5) =
      ({ result := true, error := none, deletedCount := some 1,
         createdCount := some 2 },
       [{ apartmentId := "valery-sources-baie", startDate := dayOf 2025 1 1,
          endDate := dayOf 2025 1 2, reason := "hiver" },
        { apartmentId := "valery-sources-baie", startDate := dayOf 2025 1 6,
          endDate := dayOf 2025 1 10, reason := "hiver" }]) := by
  decide

/-- Closed-interval overlap between a stored period and a query range:
`existing.start <= range.end AND existing.end >= range.start`. -/
def overlapsRange (p : BlockedPeriod) (s e : Int) : Prop :=
  p.startDate ≤ e ∧ s ≤ p.endDate

instance (p : BlockedPeriod) (s e : Int) : Decidable (overlapsRange p s e) := by
  unfold overlapsRange
  infer_instance

/-- For a well-formed period and range the four-clause unblock query is
exactly the closed-interval overlap test restricted to the apartment. -/
theorem unblockQuery_iff_overlap (apt : String) (s e : Int) (p : BlockedPeriod)
    (hwf : p.startDate ≤ p.endDate) (hse : s ≤ e) :
    unblockQueryMatches apt s e p ↔ (p.apartmentId = apt ∧ overlapsRange p s e) := by
  unfold unblockQueryMatches overlapsRange
  constructor
  · rintro ⟨ha, h⟩
    exact ⟨ha, by omega⟩
  · rintro ⟨ha, h⟩
    exact ⟨ha, by omega⟩

/-- Membership in the post-operation store of DELETE /unblockDates: either an
untouched stored period that the query did not select, or a residual of some
selected period. -/
theorem mem_unblock_post {store : List BlockedPeriod} {apt : String} {s e : Int}
    {p : BlockedPeriod} :
    p ∈ (unblockDates store apt s e).2 ↔
      ((p ∈ store ∧ ¬unblockQueryMatches apt s e p) ∨
       (∃ q, q ∈ store ∧ unblockQueryMatches apt s e q ∧ p ∈ residuals apt s e q)) := by
  unfold unblockDates
  by_cases h : (store.filter fun r => decide (unblockQueryMatches apt s e r)).isEmpty
  · rw [if_pos h]
    rw [List.isEmpty_iff, List.filter_eq_nil_iff] at h
    have hnone : ∀ q ∈ store, ¬unblockQueryMatches apt s e q := by
      intro q hq
      have := h q hq
      simpa using this
    constructor
    · intro hp
      exact Or.inl ⟨hp, hnone p hp⟩
    · rintro (⟨hp, _⟩ | ⟨q, hq, hmq, _⟩)
      · exact hp
      · exact absurd hmq (hnone q hq)
  · rw [if_neg h]
    simp only [List.mem_append, List.mem_filter, List.mem_flatMap, Bool.not_eq_true',
      decide_eq_false_iff_not, decide_eq_true_eq]
    tauto

/-- Shape of a residual period: it belongs to the apartment, keeps the parent
period's reason, is well-formed, lies inside the parent period's interval, and
lies entirely outside the released range. -/
theorem residual_shape {apt : String} {s e : Int} {q r : BlockedPeriod}
    (hq : unblockQueryMatches apt s e q) (hwfq : q.startDate ≤ q.endDate)
    (hse : s ≤ e) (hr : r ∈ residuals apt s e q) :
    r.apartmentId = apt ∧ r.reason = q.reason ∧ q.startDate ≤ r.startDate ∧
    r.endDate ≤ q.endDate ∧ r.startDate ≤ r.endDate ∧
    (r.endDate < s ∨ e < r.startDate) := by
  have hov : q.startDate ≤ e ∧ s ≤ q.endDate :=
    ((unblockQuery_iff_overlap apt s e q hwfq hse).mp hq).2
  unfold residuals at hr
  rcases List.mem_append.mp hr with h | h
  · by_cases hb : q.startDate < s
    · rw [if_pos hb, List.mem_singleton] at h
      subst h
      refine ⟨rfl, rfl, ?_, ?_, ?_, ?_⟩ <;> (dsimp only; omega)
    · rw [if_neg hb] at h
      cases h
  · by_cases hb : e < q.endDate
    · rw [if_pos hb, List.mem_singleton] at h
      subst h
      refine ⟨rfl, rfl, ?_, ?_, ?_, ?_⟩ <;> (dsimp only; omega)
    · rw [if_neg hb] at h
      cases h

/-- Date d is blocked for an apartment: d lies inside some stored period of
that apartment (membership in the union of the periods' closed date ranges). -/
def isBlockedOn (store : List BlockedPeriod) (apt : String) (d : Int) : Prop :=
  ∃ p, p ∈ store ∧ p.apartmentId = apt ∧ p.startDate ≤ d ∧ d ≤ p.endDate

/-- Claim C5: after the unblock operation, no period of the apartment overlaps
the released range [s, e], and every date outside [s, e] has exactly the same
blocked status as before the operation. -/
theorem C5_unblock_frame (store : List BlockedPeriod) (apt : String) (s e : Int)
    (hwf : ∀ p ∈ store, p.startDate ≤ p.endDate) (hse : s ≤ e) :
    (∀ p ∈ (unblockDates store apt s e).2, p.apartmentId = apt →
      ¬overlapsRange p s e) ∧
    (∀ d : Int, d < s ∨ e < d →
      (isBlockedOn (unblockDates store apt s e).2 apt d ↔ isBlockedOn store apt d)) := by
  constructor
  · intro p hp hapt
    rcases mem_unblock_post.mp hp with ⟨hps, hnm⟩ | ⟨q, hq, hmq, hres⟩
    · intro hov
      exact hnm ((unblockQuery_iff_overlap apt s e p (hwf p hps) hse).mpr ⟨hapt, hov⟩)
    · have hsh := residual_shape hmq (hwf q hq) hse hres
      unfold overlapsRange
      omega
  · intro d hd
    constructor
    · rintro ⟨p, hp, hapt, h1, h2⟩
      rcases mem_unblock_post.mp hp with ⟨hps, _⟩ | ⟨q, hq, hmq, hres⟩
      · exact ⟨p, hps, hapt, h1, h2⟩
      · have hsh := residual_shape hmq (hwf q hq) hse hres
        have hqapt : q.apartmentId = apt :=
          ((unblockQuery_iff_overlap apt s e q (hwf q hq) hse).mp hmq).1
        exact ⟨q, hq, hqapt, by omega, by omega⟩
    · rintro ⟨p, hp, hapt, h1, h2⟩
      by_cases hm : unblockQueryMatches apt s e p
      · have hov : p.startDate ≤ e ∧ s ≤ p.endDate :=
          ((unblockQuery_iff_overlap apt s e p (hwf p hp) hse).mp hm).2
        rcases hd with hd | hd
        · refine ⟨⟨apt, p.startDate, s - 1, p.reason⟩, ?_, rfl, ?_, ?_⟩
          · refine mem_unblock_post.mpr (Or.inr ⟨p, hp, hm, ?_⟩)
            unfold residuals
            rw [List.mem_append]
            refine Or.inl ?_
            rw [if_pos (by omega), List.mem_singleton]
          · show p.startDate ≤ d
            omega
          · show d ≤ s - 1
            omega
        · refine ⟨⟨apt, e + 1, p.endDate, p.reason⟩, ?_, rfl, ?_, ?_⟩
          · refine mem_unblock_post.mpr (Or.inr ⟨p, hp, hm, ?_⟩)
            unfold residuals
            rw [List.mem_append]
            refine Or.inr ?_
            rw [if_pos (by omega), List.mem_singleton]
          · show e + 1 ≤ d
            omega
          · show d ≤ p.endDate
            omega
      · exact ⟨p, mem_unblock_post.mpr (Or.inl ⟨hp, hm⟩), hapt, h1, h2⟩

/-- Concrete store for the C5 witness: one period 2025-01-01 .. 2025-01-10. -/
def c5Store : List BlockedPeriod :=
  [{ apartmentId := "touquet-pinede", startDate := dayOf 2025 1 1,
     endDate := dayOf 2025 1 10, reason := "hiver" }]

/-- Claim C5 witness: the frame theorem applied to the concrete store
[2025-01-01, 2025-01-10] and release range [2025-01-03, 2025-01-05]. -/
theorem C5_unblock_frame_witness :
    (∀ p ∈ (unblockDates c5Store "touquet-pinede" (dayOf 2025 1 3) (dayOf 2025 1 5)).2,
      p.apartmentId = "touquet-pinede" →
        ¬overlapsRange p (dayOf 2025 1 3) (dayOf 2025 1 5)) ∧
    (∀ d : Int, d < dayOf 2025 1 3 ∨ dayOf 2025 1 5 < d →
      (isBlockedOn (unblockDates c5Store "touquet-pinede"
          (dayOf 2025 1 3) (dayOf 2025 1 5)).2 "touquet-pinede" d ↔
        isBlockedOn c5Store "touquet-pinede" d)) :=
  C5_unblock_frame c5Store "touquet-pinede" (dayOf 2025 1 3) (dayOf 2025 1 5)
    (by decide) (by decide)

/-- Claim C6 counterexample: with a store whose only period [2025-03-10,
2025-03-20] does not overlap the release range [2025-03-01, 2025-03-05], the
operation returns the `result: false` error body, in which no deletedCount or
createdCount field is present (modelled as `none`): it does not return
deletedCount = 0 and createdCount = 0, and the response is an error-shaped
result rather than a success. -/
theorem C6_counterexample :
    (unblockDates
        [{ apartmentId := "touquet-pinede", startDate := dayOf 2025 3 10,
           endDate := dayOf 2025 3 20, reason := "fermeture" }]
        "touquet-pinede" (dayOf 2025 3 1) (dayOf 2025 3 5)).1 =
      { result := false,
        error := some "Aucune période bloquée trouvée dans cette plage de dates",
        deletedCount := none, createdCount := none } ∧
    (unblockDates
        [{ apartmentId := "touquet-pinede", startDate := dayOf 2025 3 10,
           endDate := dayOf 2025 3 20, reason := "fermeture" }]
        "touquet-pinede" (dayOf 2025 3 1) (dayOf 2025 3 5)).1.deletedCount ≠ some 0 := by
  decide

/-- Claim C6 (amended): for every apartment and well-formed range [start, end]
overlapping no existing BlockedPeriod of that apartment, the unblock operation
is a no-op that does not reach the split loop: it leaves the store unchanged
and returns the `result: false` "nothing to unblock" body, whose payload
carries no deletedCount or createdCount fields (rather than counts of 0). -/
theorem C6_amended_noop (store : List BlockedPeriod) (apt : String) (s e : Int)
    (hwf : ∀ p ∈ store, p.startDate ≤ p.endDate) (hse : s ≤ e)
    (hnone : ∀ p ∈ store, p.apartmentId = apt → ¬overlapsRange p s e) :
    unblockDates store apt s e =
      ({ result := false,
         error := some "Aucune période bloquée trouvée dans cette plage de dates",
         deletedCount := none, createdCount := none }, store) := by
  have hempty : (store.filter fun p => decide (unblockQueryMatches apt s e p)) = [] := by
    rw [List.filter_eq_nil_iff]
    intro p hp
    simp only [decide_eq_true_eq]
    intro hm
    have h := (unblockQuery_iff_overlap apt s e p (hwf p hp) hse).mp hm
    exact hnone p hp h.1 h.2
  unfold unblockDates
  rw [hempty]
  rfl

/-- Claim C6 (amended) witness: the no-op theorem applied to the concrete
store [2025-03-10, 2025-03-20] and the disjoint release range
[2025-03-01, 2025-03-05]. -/
theorem C6_amended_noop_witness :
    unblockDates
        [{ apartmentId := "touquet-pinede", startDate := dayOf 2025 3 10,
           endDate := dayOf 2025 3 20, reason := "fermeture" }]
        "touquet-pinede" (dayOf 2025 3 1) (dayOf 2025 3 5) =
      ({ result := false,
         error := some "Aucune période bloquée trouvée dans cette plage de dates",
         deletedCount := none, createdCount := none },
       [{ apartmentId := "touquet-pinede", startDate := dayOf 2025 3 10,
          endDate := dayOf 2025 3 20, reason := "fermeture" }]) :=
  C6_amended_noop
    [{ apartmentId := "touquet-pinede", startDate := dayOf 2025 3 10,
       endDate := dayOf 2025 3 20, reason := "fermeture" }]
    "touquet-pinede" (dayOf 2025 3 1) (dayOf 2025 3 5)
    (by decide) (by decide) (by decide)

/-- The three-clause `$or` overlap check of POST /blockDates
(routes/calendar.js): an existing period containing the new start, containing
the new end, or fully inside the new range, restricted to the apartment. -/
def blockQueryMatches (apt : String) (s e : Int) (p : BlockedPeriod) : Prop :=
  p.apartmentId = apt ∧
  ((p.startDate ≤ s ∧ s ≤ p.endDate) ∨
   (p.startDate ≤ e ∧ e ≤ p.endDate) ∨
   (s ≤ p.startDate ∧ p.endDate ≤ e))

instance (apt : String) (s e : Int) (p : BlockedPeriod) :
    Decidable (blockQueryMatches apt s e p) := by
  unfold blockQueryMatches
  infer_instance

/-- POST /blockDates: reject with `result: false` and insert nothing when the
overlap query finds an existing block; otherwise save the new period (the
reason defaulting to "Non spécifié" for a falsy/empty value, per
`reason || "Non spécifié"`). -/
def blockDates (store : List BlockedPeriod) (apt : String) (s e : Int)
    (reason : String) : Bool × List BlockedPeriod :=
  if store.any fun p => decide (blockQueryMatches apt s e p) then
    (false, store)
  else
    (true, store ++
      [{ apartmentId := apt, startDate := s, endDate := e,
         reason := if reason = "" then "Non spécifié" else reason }])

/-- The two calendar mutations considered by claim C8. -/
inductive CalOp
  | block (apt : String) (s e : Int) (reason : String)
  | unblock (apt : String) (s e : Int)

/-- The store each route leaves behind. -/
def applyOp (store : List BlockedPeriod) : CalOp → List BlockedPeriod
  | .block apt s e reason => (blockDates store apt s e reason).2
  | .unblock apt s e => (unblockDates store apt s e).2

/-- Store reached after a sequence of block / unblock operations. -/
def applyOps (store : List BlockedPeriod) (ops : List CalOp) : List BlockedPeriod :=
  ops.foldl applyOp store

/-- Two periods overlap as closed calendar intervals. -/
def periodsOverlap (p q : BlockedPeriod) : Prop :=
  p.startDate ≤ q.endDate ∧ q.startDate ≤ p.endDate

/-- No two stored periods of the same apartment overlap. -/
def StoreDisjoint (store : List BlockedPeriod) : Prop :=
  store.Pairwise fun p q => p.apartmentId = q.apartmentId → ¬periodsOverlap p q

/-- Every stored period is a genuine interval. -/
def StoreWf (store : List BlockedPeriod) : Prop :=
  ∀ p ∈ store, p.startDate ≤ p.endDate

/-- An operation's range [start, end] is a genuine interval. -/
def opWf : CalOp → Prop
  | .block _ s e _ => s ≤ e
  | .unblock _ s e => s ≤ e

instance (op : CalOp) : Decidable (opWf op) := by
  cases op <;> (unfold opWf; infer_instance)

theorem storeDisjoint_symm :
    Symmetric fun p q : BlockedPeriod =>
      p.apartmentId = q.apartmentId → ¬periodsOverlap p q := by
  intro x y h heq hov
  exact h heq.symm ⟨hov.2, hov.1⟩

/-- One block operation preserves disjointness and well-formedness. -/
theorem blockDates_preserves (store : List BlockedPeriod) (apt : String)
    (s e : Int) (reason : String) (hd : StoreDisjoint store) (hwf : StoreWf store)
    (hse : s ≤ e) :
    StoreDisjoint (blockDates store apt s e reason).2 ∧
    StoreWf (blockDates store apt s e reason).2 := by
  unfold blockDates
  by_cases h : store.any fun p => decide (blockQueryMatches apt s e p)
  · rw [if_pos h]
    exact ⟨hd, hwf⟩
  · rw [if_neg h]
    have hnone : ∀ p ∈ store, ¬blockQueryMatches apt s e p := by
      intro p hp hm
      exact h (List.any_eq_true.mpr ⟨p, hp, by simpa using hm⟩)
    constructor
    · rw [StoreDisjoint, List.pairwise_append]
      refine ⟨hd, List.pairwise_singleton _ _, ?_⟩
      intro p hp n hn
      rw [List.mem_singleton] at hn
      subst hn
      intro hapt hov
      have hapt2 : p.apartmentId = apt := hapt
      have hov2 : p.startDate ≤ e ∧ s ≤ p.endDate := hov
      exact hnone p hp ⟨hapt2, by omega⟩
    · intro p hp
      rcases List.mem_append.mp hp with hps | hpn
      · exact hwf p hps
      · rw [List.mem_singleton] at hpn
        subst hpn
        exact hse

/-- The two residuals of a single split period never overlap each other. -/
theorem residuals_pairwise (apt : String) (s e : Int) (q : BlockedPeriod)
    (hse : s ≤ e) :
    (residuals apt s e q).Pairwise fun a b =>
      a.apartmentId = b.apartmentId → ¬periodsOverlap a b := by
  unfold residuals
  rw [List.pairwise_append]
  refine ⟨?_, ?_, ?_⟩
  · by_cases h1 : q.startDate < s
    · rw [if_pos h1]
      exact List.pairwise_singleton _ _
    · rw [if_neg h1]
      exact List.Pairwise.nil
  · by_cases h2 : e < q.endDate
    · rw [if_pos h2]
      exact List.pairwise_singleton _ _
    · rw [if_neg h2]
      exact List.Pairwise.nil
  · intro a ha b hb
    by_cases h1 : q.startDate < s
    · rw [if_pos h1, List.mem_singleton] at ha
      by_cases h2 : e < q.endDate
      · rw [if_pos h2, List.mem_singleton] at hb
        subst ha
        subst hb
        intro _ hov
        have hov2 : q.startDate ≤ q.endDate ∧ e + 1 ≤ s - 1 := hov
        omega
      · rw [if_neg h2] at hb
        cases hb
    · rw [if_neg h1] at ha
      cases ha

/-- One unblock operation preserves disjointness and well-formedness. -/
theorem unblockDates_preserves (store : List BlockedPeriod) (apt : String)
    (s e : Int) (hd : StoreDisjoint store) (hwf : StoreWf store) (hse : s ≤ e) :
    StoreDisjoint (unblockDates store apt s e).2 ∧
    StoreWf (unblockDates store apt s e).2 := by
  constructor
  · unfold unblockDates
    by_cases h : (store.filter fun p => decide (unblockQueryMatches apt s e p)).isEmpty
    · rw [if_pos h]
      exact hd
    · rw [if_neg h]
      show List.Pairwise _ (_ ++ _)
      rw [List.pairwise_append]
      have hselect : ∀ p ∈ (store.filter fun p =>
          decide (unblockQueryMatches apt s e p)), unblockQueryMatches apt s e p := by
        intro p hp
        have := (List.mem_filter.mp hp).2
        simpa using this
      have hselmem : ∀ p ∈ (store.filter fun p =>
          decide (unblockQueryMatches apt s e p)), p ∈ store := by
        intro p hp
        exact (List.mem_filter.mp hp).1
      refine ⟨hd.sublist (List.filter_sublist _), ?_, ?_⟩
      · rw [List.pairwise_flatMap]
        constructor
        · intro q _
          exact residuals_pairwise apt s e q hse
        · have hpw : (store.filter fun p =>
              decide (unblockQueryMatches apt s e p)).Pairwise fun p q =>
                p.apartmentId = q.apartmentId → ¬periodsOverlap p q :=
            hd.sublist (List.filter_sublist _)
          rw [List.Pairwise.and_mem] at hpw
          refine hpw.imp_of_mem ?_
          intro q1 q2 _ _ hR x hx y hy
          obtain ⟨hq1, hq2, hR⟩ := hR
          have hm1 := hselect q1 hq1
          have hm2 := hselect q2 hq2
          have hs1 := residual_shape hm1 (hwf q1 (hselmem q1 hq1)) hse hx
          have hs2 := residual_shape hm2 (hwf q2 (hselmem q2 hq2)) hse hy
          intro _ hov
          have hq1apt : q1.apartmentId = apt := hm1.1
          have hq2apt : q2.apartmentId = apt := hm2.1
          refine hR (by rw [hq1apt, hq2apt]) ?_
          unfold periodsOverlap at hov ⊢
          omega
      · intro a ha b hb
        have hamem : a ∈ store := (List.mem_filter.mp ha).1
        have hanot : ¬unblockQueryMatches apt s e a := by
          have := (List.mem_filter.mp ha).2
          simpa using this
        rw [List.mem_flatMap] at hb
        obtain ⟨q, hq, hbq⟩ := hb
        have hmq := hselect q hq
        have hqmem := hselmem q hq
        have hsh := residual_shape hmq (hwf q hqmem) hse hbq
        intro hab hov
        have hane : a ≠ q := by
          intro heq
          exact hanot (heq ▸ hmq)
        have hR := (hd.forall storeDisjoint_symm) hamem hqmem hane
        have haapt : a.apartmentId = apt := by
          rw [hab, hsh.1]
        refine hR (by rw [haapt, hmq.1]) ?_
        unfold periodsOverlap at hov ⊢
        omega
  · intro p hp
    rcases mem_unblock_post.mp hp with ⟨hps, _⟩ | ⟨q, hq, hmq, hres⟩
    · exact hwf p hps
    · exact (residual_shape hmq (hwf q hq) hse hres).2.2.2.2.1

/-- Folding any well-formed operation sequence preserves the invariant. -/
theorem applyOps_preserves (ops : List CalOp) :
    ∀ store : List BlockedPeriod, StoreDisjoint store → StoreWf store →
      (∀ op ∈ ops, opWf op) →
      StoreDisjoint (applyOps store ops) ∧ StoreWf (applyOps store ops) := by
  induction ops with
  | nil =>
    intro store hd hwf _
    exact ⟨hd, hwf⟩
  | cons op rest ih =>
    intro store hd hwf hops
    have hstep : StoreDisjoint (applyOp store op) ∧ StoreWf (applyOp store op) := by
      cases op with
      | block apt s e reason =>
        exact blockDates_preserves store apt s e reason hd hwf
          (hops _ (List.mem_cons_self _ _))
      | unblock apt s e =>
        exact unblockDates_preserves store apt s e hd hwf
          (hops _ (List.mem_cons_self _ _))
    exact ih (applyOp store op) hstep.1 hstep.2
      fun o ho => hops o (List.mem_cons_of_mem _ ho)

/-- Claim C8: block creation rejects (conflict result, inserting nothing) any
request whose range overlaps an existing period of the apartment under the
closed-interval test, and every state reachable from a disjoint, well-formed
store through block-creation and unblock-split operations with genuine ranges
keeps the per-apartment disjointness invariant. -/
theorem C8_disjoint_invariant (store : List BlockedPeriod) (ops : List CalOp)
    (hd : StoreDisjoint store) (hwf : StoreWf store)
    (hops : ∀ op ∈ ops, opWf op) :
    (∀ (st : List BlockedPeriod) (apt : String) (s e : Int) (reason : String)
        (p : BlockedPeriod), p ∈ st → p.apartmentId = apt →
        p.startDate ≤ e → s ≤ p.endDate →
        blockDates st apt s e reason = (false, st)) ∧
    StoreDisjoint (applyOps store ops) := by
  constructor
  · intro st apt s e reason p hp hapt h1 h2
    unfold blockDates
    rw [if_pos]
    exact List.any_eq_true.mpr ⟨p, hp, by
      simp only [decide_eq_true_eq]
      exact ⟨hapt, by omega⟩⟩
  · exact (applyOps_preserves ops store hd hwf hops).1

/-- Claim C8 witness: the theorem applied to an empty initial store and a
concrete sequence block [0,5]; unblock [2,3]; block [10,12]. -/
theorem C8_disjoint_invariant_witness :
    (∀ (st : List BlockedPeriod) (apt : String) (s e : Int) (reason : String)
        (p : BlockedPeriod), p ∈ st → p.apartmentId = apt →
        p.startDate ≤ e → s ≤ p.endDate →
        blockDates st apt s e reason = (false, st)) ∧
    StoreDisjoint (applyOps []
      [CalOp.block "valery-sources-baie" 0 5 "a",
       CalOp.unblock "valery-sources-baie" 2 3,
       CalOp.block "valery-sources-baie" 10 12 "b"]) :=
  C8_disjoint_invariant []
    [CalOp.block "valery-sources-baie" 0 5 "a",
     CalOp.unblock "valery-sources-baie" 2 3,
     CalOp.block "valery-sources-baie" 10 12 "b"]
    (by constructor) (by intro p hp; cases hp) (by decide)

/-- The priceRuleSchema fields relevant to resolution (models/priceRule.js).
createdAt is the schema's timestamps creation instant; a rule store list keeps
insertion order.  The schema's `type` field can only hold "period" and is
omitted. -/
structure PriceRule where
  property : String
  name : String
  startDate : Int
  endDate : Int
  pricePerNight : Int
  isActive : Bool
  priority : Int
  createdAt : Int
deriving DecidableEq

/-- The hard-coded per-property defaults with the `|| 100` fallback used by
both resolvers. -/
def defaultPrice (property : String) : Int :=
  if property = "valery-sources-baie" then 120
  else if property = "touquet-pinede" then 150
  else 100

/-- The findOne filter of PriceRule.getPriceForDate: property, isActive, and
startDate <= date <= endDate. -/
def ruleMatchesQuery (property : String) (date : Int) (r : PriceRule) : Prop :=
  r.property = property ∧ r.isActive = true ∧ r.startDate ≤ date ∧ date ≤ r.endDate

instance (property : String) (date : Int) (r : PriceRule) :
    Decidable (ruleMatchesQuery property date r) := by
  unfold ruleMatchesQuery
  infer_instance

/-- The sort order of PriceRule.getPriceForDate:
`.sort({ priority: -1, createdAt: -1 })` (priority descending, then createdAt
descending). -/
def modelSortRel (a b : PriceRule) : Prop :=
  b.priority < a.priority ∨ (a.priority = b.priority ∧ b.createdAt ≤ a.createdAt)

instance : DecidableRel modelSortRel := fun a b => by
  unfold modelSortRel
  infer_instance

instance : IsTotal PriceRule modelSortRel := by
  constructor
  intro a b
  unfold modelSortRel
  omega

instance : IsTrans PriceRule modelSortRel := by
  constructor
  intro a b c
  unfold modelSortRel
  omega

/-- PriceRule.getPriceForDate (models/priceRule.js): the first matching rule
in (priority desc, createdAt desc) order, else the per-property default. -/
def getPriceForDate (rules : List PriceRule) (property : String) (date : Int) : Int :=
  match ((rules.filter fun r =>
      decide (ruleMatchesQuery property date r)).insertionSort modelSortRel).head? with
  | some r => r.pricePerNight
  | none => defaultPrice property

/-- The sort order of PriceCacheService.getPriceRules:
`.sort({ priority: -1, startDate: 1 })` (priority descending, then startDate
ascending). -/
def cacheSortRel (a b : PriceRule) : Prop :=
  b.priority < a.priority ∨ (a.priority = b.priority ∧ a.startDate ≤ b.startDate)

instance : DecidableRel cacheSortRel := fun a b => by
  unfold cacheSortRel
  infer_instance

instance : IsTotal PriceRule cacheSortRel := by
  constructor
  intro a b
  unfold cacheSortRel
  omega

instance : IsTrans PriceRule cacheSortRel := by
  constructor
  intro a b c
  unfold cacheSortRel
  omega

/-- PriceCacheService.getPriceForDate (services/priceCache.js), cache-miss
path: fetch all rules of the property sorted by (priority desc, startDate
asc), take the first rule with
`targetDate >= start && targetDate <= end && rule.isActive`, else the same
default table. -/
def cacheGetPriceForDate (rules : List PriceRule) (property : String) (date : Int) : Int :=
  match ((rules.filter fun r =>
      decide (r.property = property)).insertionSort cacheSortRel).find?
        (fun r => decide (r.startDate ≤ date ∧ date ≤ r.endDate ∧ r.isActive = true)) with
  | some r => r.pricePerNight
  | none => defaultPrice property

/-- In a list sorted by r, the first element satisfying p is related by r to
every other element satisfying p. -/
theorem find_first_rel {α : Type} {r : α → α → Prop} {l : List α}
    (hl : l.Pairwise r) {p : α → Bool} {q x : α}
    (hf : l.find? p = some q) (hx : x ∈ l) (hpx : p x = true) :
    q = x ∨ r q x := by
  induction l with
  | nil => cases hf
  | cons b t ih =>
    by_cases hb : p b = true
    · rw [List.find?_cons_of_pos _ hb] at hf
      injection hf with hf
      subst hf
      rcases List.mem_cons.mp hx with rfl | hx
      · exact Or.inl rfl
      · exact Or.inr (List.rel_of_pairwise_cons hl hx)
    · rw [List.find?_cons_of_neg _ hb] at hf
      rcases List.mem_cons.mp hx with rfl | hx
      · exact absurd hpx hb
      · exact ih hl.of_cons hf hx

/-- In a list sorted by r, the head is related by r to every other element. -/
theorem head_first_rel {α : Type} {r : α → α → Prop} {l : List α}
    (hl : l.Pairwise r) {q x : α} (hf : l.head? = some q) (hx : x ∈ l) :
    q = x ∨ r q x := by
  cases l with
  | nil => cases hf
  | cons b t =>
    have hb : b = q := by simpa using hf
    subst hb
    rcases List.mem_cons.mp hx with rfl | hx
    · exact Or.inl rfl
    · exact Or.inr (List.rel_of_pairwise_cons hl hx)

/-- Active rule, priority 1, [0, 10], 100 per night, created first. -/
def c7RuleA : PriceRule :=
  { property := "touquet-pinede", name := "A", startDate := 0, endDate := 10,
    pricePerNight := 100, isActive := true, priority := 1, createdAt := 1 }

/-- Active rule, priority 1, [1, 10], 200 per night, created second. -/
def c7RuleB : PriceRule :=
  { property := "touquet-pinede", name := "B", startDate := 1, endDate := 10,
    pricePerNight := 200, isActive := true, priority := 1, createdAt := 2 }

/-- Claim C7 counterexample: with two active rules of EQUAL priority both
matching date 5 — rule A ([0,10], price 100, created first) and rule B
([1,10], price 200, created second) — the model resolver picks B (newest
createdAt) while the cached resolver picks A (smallest startDate), so the
cached resolver does NOT return the same price as the model resolver for
every property, date and rule set. -/
theorem C7_counterexample :
    getPriceForDate [c7RuleA, c7RuleB] "touquet-pinede" 5 = 200 ∧
    cacheGetPriceForDate [c7RuleA, c7RuleB] "touquet-pinede" 5 = 100 ∧
    cacheGetPriceForDate [c7RuleA, c7RuleB] "touquet-pinede" 5 ≠
      getPriceForDate [c7RuleA, c7RuleB] "touquet-pinede" 5 := by
  decide

/-- Claim C7 (amended): price resolution considers only active rules with
start <= date <= end; the model resolver (PriceRule.getPriceForDate) returns
the price of the matching rule with the highest priority, breaking priority
ties by newest createdAt — in particular the higher-priority rule wins
regardless of insertion order; and the cached resolver
(PriceCacheService.getPriceForDate) returns the same price as the model
resolver whenever the matching rule of maximal priority is unique (on a
priority tie the two resolvers may disagree, as the cache breaks ties by
smallest startDate instead). -/
theorem C7_amended_price_resolution (rules : List PriceRule) (property : String)
    (d : Int) (r : PriceRule) (hr : r ∈ rules)
    (hmatch : ruleMatchesQuery property d r)
    (hmax : ∀ q ∈ rules, ruleMatchesQuery property d q → q ≠ r →
      q.priority < r.priority ∨
      (q.priority = r.priority ∧ q.createdAt < r.createdAt)) :
    getPriceForDate rules property d = r.pricePerNight ∧
    ((∀ q ∈ rules, ruleMatchesQuery property d q → q ≠ r →
        q.priority < r.priority) →
      cacheGetPriceForDate rules property d = r.pricePerNight) := by
  constructor
  · have hrM : r ∈ rules.filter fun x => decide (ruleMatchesQuery property d x) :=
      List.mem_filter.mpr ⟨hr, by simpa using hmatch⟩
    have hperm := List.perm_insertionSort modelSortRel
      (rules.filter fun x => decide (ruleMatchesQuery property d x))
    have hrS : r ∈ (rules.filter fun x =>
        decide (ruleMatchesQuery property d x)).insertionSort modelSortRel :=
      hperm.mem_iff.mpr hrM
    obtain ⟨h, hh⟩ : ∃ h, ((rules.filter fun x =>
        decide (ruleMatchesQuery property d x)).insertionSort modelSortRel).head? = some h := by
      cases hs : (rules.filter fun x =>
          decide (ruleMatchesQuery property d x)).insertionSort modelSortRel with
      | nil =>
        rw [hs] at hrS
        cases hrS
      | cons a t => exact ⟨a, rfl⟩
    have hhS : h ∈ (rules.filter fun x =>
        decide (ruleMatchesQuery property d x)).insertionSort modelSortRel :=
      List.mem_of_mem_head? (Option.mem_def.mpr hh)
    have hhM : h ∈ rules.filter fun x => decide (ruleMatchesQuery property d x) :=
      hperm.mem_iff.mp hhS
    have hhmatch : ruleMatchesQuery property d h := by
      have := (List.mem_filter.mp hhM).2
      simpa using this
    have hsorted := List.sorted_insertionSort modelSortRel
      (rules.filter fun x => decide (ruleMatchesQuery property d x))
    have hcomp := head_first_rel hsorted hh hrS
    have heq : h = r := by
      rcases hcomp with heq | hrel
      · exact heq
      · by_cases hne : h = r
        · exact hne
        · have hlt := hmax h (List.mem_filter.mp hhM).1 hhmatch hne
          unfold modelSortRel at hrel
          omega
    unfold getPriceForDate
    rw [hh, heq]
  · intro hstrict
    have hrP : r ∈ rules.filter fun x => decide (x.property = property) :=
      List.mem_filter.mpr ⟨hr, by simpa using hmatch.1⟩
    have hperm := List.perm_insertionSort cacheSortRel
      (rules.filter fun x => decide (x.property = property))
    have hrS : r ∈ (rules.filter fun x =>
        decide (x.property = property)).insertionSort cacheSortRel :=
      hperm.mem_iff.mpr hrP
    have hpred_r : (fun x : PriceRule => decide (x.startDate ≤ d ∧ d ≤ x.endDate ∧
        x.isActive = true)) r = true := by
      simp only [decide_eq_true_eq]
      exact ⟨hmatch.2.2.1, hmatch.2.2.2, hmatch.2.1⟩
    obtain ⟨q, hq⟩ : ∃ q, ((rules.filter fun x =>
        decide (x.property = property)).insertionSort cacheSortRel).find?
          (fun x => decide (x.startDate ≤ d ∧ d ≤ x.endDate ∧ x.isActive = true)) =
        some q := by
      cases hf : ((rules.filter fun x =>
          decide (x.property = property)).insertionSort cacheSortRel).find?
            (fun x => decide (x.startDate ≤ d ∧ d ≤ x.endDate ∧ x.isActive = true)) with
      | none =>
        rw [List.find?_eq_none] at hf
        exact absurd hpred_r (hf r hrS)
      | some q => exact ⟨q, rfl⟩
    have hqS := List.mem_of_find?_eq_some hq
    have hqP : q ∈ rules.filter fun x => decide (x.property = property) :=
      hperm.mem_iff.mp hqS
    have hqpred := List.find?_some hq
    have hqmatch : ruleMatchesQuery property d q := by
      have hprop := (List.mem_filter.mp hqP).2
      simp only [decide_eq_true_eq] at hprop hqpred
      exact ⟨hprop, hqpred.2.2, hqpred.1, hqpred.2.1⟩
    have hsorted := List.sorted_insertionSort cacheSortRel
      (rules.filter fun x => decide (x.property = property))
    have hcomp := find_first_rel hsorted hq hrS hpred_r
    have heq : q = r := by
      rcases hcomp with heq | hrel
      · exact heq
      · by_cases hne : q = r
        · exact hne
        · have hlt := hstrict q (List.mem_filter.mp hqP).1 hqmatch hne
          unfold cacheSortRel at hrel
          omega
    unfold cacheGetPriceForDate
    rw [hq, heq]

/-- Active rule, priority 2, [0, 10], 300 per night, for the C7 witness. -/
def c7RuleC : PriceRule :=
  { property := "touquet-pinede", name := "C", startDate := 0, endDate := 10,
    pricePerNight := 300, isActive := true, priority := 2, createdAt := 3 }

/-- Claim C7 (amended) witness: with rules A (priority 1) and C (priority 2)
both matching date 5 — in this insertion order — both resolvers return the
priority-2 price. -/
theorem C7_amended_price_resolution_witness :
    getPriceForDate [c7RuleA, c7RuleC] "touquet-pinede" 5 = c7RuleC.pricePerNight ∧
    ((∀ q ∈ [c7RuleA, c7RuleC], ruleMatchesQuery "touquet-pinede" 5 q → q ≠ c7RuleC →
        q.priority < c7RuleC.priority) →
      cacheGetPriceForDate [c7RuleA, c7RuleC] "touquet-pinede" 5 = c7RuleC.pricePerNight) :=
  C7_amended_price_resolution [c7RuleA, c7RuleC] "touquet-pinede" 5 c7RuleC
    (by decide) (by decide) (by decide)

/-- PriceRule.getPricesForPeriod (models/priceRule.js): the while loop from
start to end INCLUSIVE, producing one (date, getPriceForDate) entry per day. -/
def getPricesForPeriod (rules : List PriceRule) (property : String) (s e : Int) :
    List (Int × Int) :=
  (datesFromTo s e).map fun d => (d, getPriceForDate rules property d)

/-- The dailyPrices map of GET /prices (routes/calendar.js):
getPricesForPeriod(property, start, lastNightDate) with
lastNightDate = end - 1 day, so one entry per night, checkout day excluded. -/
def pricesRouteDaily (rules : List PriceRule) (property : String) (s e : Int) :
    List (Int × Int) :=
  getPricesForPeriod rules property s (e - 1)

/-- The totalPrice of GET /prices:
`Object.values(prices).reduce((sum, price) => sum + price, 0)`. -/
def pricesRouteTotal (rules : List PriceRule) (property : String) (s e : Int) : Int :=
  ((pricesRouteDaily rules property s e).map Prod.snd).foldl (· + ·) 0

theorem nodup_datesFromTo (a b : Int) : (datesFromTo a b).Nodup := by
  unfold datesFromTo
  refine (List.nodup_range _).map ?_
  intro i j hij
  dsimp only at hij
  omega

/-- Claim C9: for start < end the route's per-night price list has exactly one
entry per date of [start, end) — pairwise-distinct keys whose set is exactly
[start, end), checkout day excluded — each entry's price is getPriceForDate of
its date, and the reported total is the sum of the per-night prices. -/
theorem C9_price_range (rules : List PriceRule) (property : String) (s e : Int)
    (hlt : s < e) :
    ((pricesRouteDaily rules property s e).map Prod.fst).Nodup ∧
    (∀ d : Int, d ∈ (pricesRouteDaily rules property s e).map Prod.fst ↔
      s ≤ d ∧ d < e) ∧
    (∀ x : Int × Int, x ∈ pricesRouteDaily rules property s e ↔
      (s ≤ x.1 ∧ x.1 < e ∧ x.2 = getPriceForDate rules property x.1)) ∧
    pricesRouteTotal rules property s e =
      ((datesFromTo s (e - 1)).map (getPriceForDate rules property)).sum := by
  have hkeys : (pricesRouteDaily rules property s e).map Prod.fst =
      datesFromTo s (e - 1) := by
    unfold pricesRouteDaily getPricesForPeriod
    rw [List.map_map]
    exact List.map_id _
  refine ⟨?_, ?_, ?_, ?_⟩
  · rw [hkeys]
    exact nodup_datesFromTo _ _
  · intro d
    rw [hkeys, mem_datesFromTo]
    omega
  · intro x
    unfold pricesRouteDaily getPricesForPeriod
    rw [List.mem_map]
    constructor
    · rintro ⟨d, hd, rfl⟩
      rw [mem_datesFromTo] at hd
      exact ⟨hd.1, by omega, rfl⟩
    · rintro ⟨h1, h2, h3⟩
      refine ⟨x.1, ?_, ?_⟩
      · rw [mem_datesFromTo]
        omega
      · exact Prod.ext rfl h3.symm
  · unfold pricesRouteTotal pricesRouteDaily getPricesForPeriod
    rw [← List.sum_eq_foldl, List.map_map]
    exact rfl

/-- Claim C9 witness: the theorem applied to an empty rule set, property
touquet-pinede and the concrete range [0, 3). -/
theorem C9_price_range_witness :
    ((pricesRouteDaily [] "touquet-pinede" 0 3).map Prod.fst).Nodup ∧
    (∀ d : Int, d ∈ (pricesRouteDaily [] "touquet-pinede" 0 3).map Prod.fst ↔
      0 ≤ d ∧ d < 3) ∧
    (∀ x : Int × Int, x ∈ pricesRouteDaily [] "touquet-pinede" 0 3 ↔
      (0 ≤ x.1 ∧ x.1 < 3 ∧ x.2 = getPriceForDate [] "touquet-pinede" x.1)) ∧
    pricesRouteTotal [] "touquet-pinede" 0 3 =
      ((datesFromTo 0 (3 - 1)).map (getPriceForDate [] "touquet-pinede")).sum :=
  C9_price_range [] "touquet-pinede" 0 3 (by decide)

/-- The propertyMap guard of GET /price/:apartmentId/:date
(routes/calendar.js): only the two known keys reach the price resolver;
every other apartmentId is answered with an error before any price lookup. -/
def priceDateRoute (rules : List PriceRule) (apartmentId : String) (d : Int) :
    Option Int :=
  if apartmentId = "valery-sources-baie" ∨ apartmentId = "touquet-pinede" then
    some (getPriceForDate rules apartmentId d)
  else none

/-- Claim C10: for every property other than the two known keys, both
resolvers return the numeric fallback 100 (not an error) when no active rule
matches, while the HTTP route rejects the unknown key before calling the
resolver. -/
theorem C10_default_fallback (property : String)
    (h1 : property ≠ "valery-sources-baie") (h2 : property ≠ "touquet-pinede")
    (rules : List PriceRule) (d : Int)
    (hnone : ∀ r ∈ rules, ¬ruleMatchesQuery property d r) :
    getPriceForDate rules property d = 100 ∧
    cacheGetPriceForDate rules property d = 100 ∧
    priceDateRoute rules property d = none := by
  have hdef : defaultPrice property = 100 := by
    unfold defaultPrice
    rw [if_neg h1, if_neg h2]
  refine ⟨?_, ?_, ?_⟩
  · have hfil : (rules.filter fun r => decide (ruleMatchesQuery property d r)) = [] := by
      rw [List.filter_eq_nil_iff]
      intro r hr
      simpa using hnone r hr
    unfold getPriceForDate
    rw [hfil]
    exact hdef
  · have hfind : ((rules.filter fun r =>
        decide (r.property = property)).insertionSort cacheSortRel).find?
          (fun r => decide (r.startDate ≤ d ∧ d ≤ r.endDate ∧ r.isActive = true)) =
        none := by
      rw [List.find?_eq_none]
      intro x hx
      have hxP : x ∈ rules.filter fun r => decide (r.property = property) :=
        (List.perm_insertionSort cacheSortRel _).mem_iff.mp hx
      have hxr := (List.mem_filter.mp hxP).1
      have hxprop : x.property = property := by
        have := (List.mem_filter.mp hxP).2
        simpa using this
      simp only [decide_eq_true_eq]
      intro hpred
      exact hnone x hxr ⟨hxprop, hpred.2.2, hpred.1, hpred.2.1⟩
    unfold cacheGetPriceForDate
    rw [hfind]
    exact hdef
  · unfold priceDateRoute
    rw [if_neg]
    rintro (h | h)
    · exact h1 h
    · exact h2 h

/-- Claim C10 witness: the theorem applied to the unknown property key
"autre-logement" with an empty rule set. -/
theorem C10_default_fallback_witness :
    getPriceForDate [] "autre-logement" 0 = 100 ∧
    cacheGetPriceForDate [] "autre-logement" 0 = 100 ∧
    priceDateRoute [] "autre-logement" 0 = none :=
  C10_default_fallback "autre-logement" (by decide) (by decide) [] 0 (by decide)

end VABack
